import Mathlib

/-!
Verification development for the vision_worker page-level visual-extraction
service (services/vision_worker/app). The Python modules are shallowly
embedded: pure control flow and arithmetic are translated into executable
Lean definitions over Nat / Int / Rat (Python floats are modelled by exact
rationals; Python int() truncation of non-negative quantities is floor
division); external library calls (OpenCV morphology and contours, OCR
engines, numpy std, SHA-256) enter the model as explicit data or function
parameters at the exact boundary where the Python code consumes their
results. Wall-clock deadlines are modelled by a budget counter that advances
by one at each external OCR call, the only operation whose duration the
source treats as significant between deadline checks.
-/

namespace VisionWorker

/-- Embeds _clamp01 (table.py lines 22-27, chart_bar.py lines 23-28). -/
def clamp01 (v : ℚ) : ℚ := if v < 0 then 0 else if v > 1 then 1 else v

/-! ## Orchestrator model (main.py) -/

/-- Stages the per-asset loop of extract_visuals can run (main.py lines
182-235).  The chart stages are listed so that their absence from a trace is
expressible. -/
inductive Stage where
  | ocrLite
  | tableDetect
  | tableExtract
  | barDetect
  | barExtract
deriving DecidableEq, Repr

/-- Outcome of the per-asset loop body: final asset_type, final confidence,
and the ordered trace of stages that were run on the region. -/
structure AssetOutcome where
  asset_type : String
  confidence : ℚ
  stages : List Stage
deriving Repr

/-- Embeds the per-asset loop body of extract_visuals (main.py lines
182-235): run OCR-lite, then detect_table; when detected, run extract_table,
set asset_type to "table" and raise the confidence to the table confidence;
finally apply the OCR-text confidence rule (lines 231-235).  The loop body
contains no call into chart_bar.py, so no chart stage ever enters the trace.
Inputs: conf0 is the confidence the layout stage gave the asset (0.5 in v1),
tableDetected the detected field of detect_table, tableConf the confidence
of the extracted table, otp whether extraction.ocr_text is non-empty,
ocrConf the OCR aggregate confidence. -/
def processAsset (conf0 : ℚ) (tableDetected : Bool) (tableConf : ℚ)
    (otp : Bool) (ocrConf : ℚ) : AssetOutcome :=
  let t := if tableDetected then "table" else "image_text"
  let c1 := if tableDetected then max conf0 tableConf else conf0
  let c2 := if otp then max c1 ocrConf else min c1 (1/4)
  { asset_type := t
    confidence := c2
    stages := [Stage.ocrLite, Stage.tableDetect] ++
      (if tableDetected then [Stage.tableExtract] else []) }

/-! ## Orchestrator fetch/decode failure model (main.py lines 104-165) -/

/-- Shape of a synthesized error asset as far as the error-path claims
inspect it. -/
structure AssetModel where
  asset_type : String
  confidence : ℚ
  errorFlag : Option String
  image_hash : Option String
deriving Repr

/-- Response shape: HTTP status plus the list of assets. -/
structure ResponseModel where
  status : ℕ
  assets : List AssetModel
deriving Repr

/-- Embeds the fetch/decode prologue of extract_visuals (main.py lines
104-165).  sha stands for hashlib.sha256(...).hexdigest(); fetched is the
bytes returned by _read_image_bytes (none on fetch failure); decodeOk is
whether PIL managed to open and load the bytes.  The Python test
`if not image_bytes` treats both None and empty bytes as a load failure.
On success the pipeline continues with the computed hash (Sum.inr). -/
def fetchDecodePhase (sha : List ℕ → String) (fetched : Option (List ℕ))
    (decodeOk : Bool) : Sum ResponseModel String :=
  match fetched with
  | none =>
      Sum.inl { status := 200
                assets := [{ asset_type := "unknown", confidence := 0,
                             errorFlag := some "image_load_failed",
                             image_hash := none }] }
  | some bytes =>
      if bytes = [] then
        Sum.inl { status := 200
                  assets := [{ asset_type := "unknown", confidence := 0,
                               errorFlag := some "image_load_failed",
                               image_hash := none }] }
      else if decodeOk then Sum.inr (sha bytes)
      else
        Sum.inl { status := 200
                  assets := [{ asset_type := "unknown", confidence := 0,
                               errorFlag := some "image_decode_failed",
                               image_hash := some (sha bytes) }] }

/-! ## Table detector model (table.py lines 39-241)

The OpenCV frontend (grayscale, Otsu, morphological opening) is external; the
model starts at the two binary line masks it produces, represented as Bool
matrices in row-major order (h rows of w columns). -/

/-- A binary mask: h rows of w Booleans, true = foreground pixel. -/
abbrev Mask := List (List Bool)

/-- Embeds cv2.bitwise_or of two masks (table.py line 174). -/
def maskOr (m1 m2 : Mask) : Mask := List.zipWith (List.zipWith or) m1 m2

/-- Embeds cv2.bitwise_and of two masks (table.py line 175). -/
def maskAnd (m1 m2 : Mask) : Mask := List.zipWith (List.zipWith and) m1 m2

/-- Embeds np.count_nonzero on a mask (table.py lines 179, 181). -/
def countNonzero (m : Mask) : ℕ := (m.map (fun row => row.count true)).sum

/-- Per-row foreground count: np.sum(mask > 0, axis=1) at row y
(table.py line 106). -/
def rowProj (m : Mask) (y : ℕ) : ℕ := (m.getD y []).count true

/-- Per-column foreground count: np.sum(mask > 0, axis=0) at column x
(table.py line 109). -/
def colProj (m : Mask) (x : ℕ) : ℕ := (m.filter (fun row => row.getD x false)).length

/-- Inner loop of _segments_to_centers (table.py lines 86-98): start/prev
delimit the run of consecutive indices currently open; a gap closes the run
and emits its midpoint (start + prev) // 2. -/
def segCentersGo (start prev : ℕ) : List ℕ → List ℕ
  | [] => [(start + prev) / 2]
  | i :: rest =>
      if i = prev + 1 then segCentersGo start i rest
      else (start + prev) / 2 :: segCentersGo i i rest

/-- Embeds _segments_to_centers (table.py lines 81-98): collapse each maximal
run of consecutive indices of the sorted input to its integer midpoint. -/
def segmentsToCenters : List ℕ → List ℕ
  | [] => []
  | i :: rest => segCentersGo i i rest

/-- Embeds np.where(proj >= threshold)[0] over an axis of length n
(table.py line 112): the ascending list of active indices. -/
def activeIndices (n : ℕ) (proj : ℕ → ℕ) (threshold : ℕ) : List ℕ :=
  (List.range n).filter (fun i => threshold ≤ proj i)

/-- Embeds the TableDetectResult dataclass (table.py lines 39-47). -/
structure TableDetectResult where
  detected : Bool
  grid_detected : Bool
  method : String
  line_pixel_ratio : ℚ
  intersections_count : ℕ
  x_lines : List ℕ
  y_lines : List ℕ
deriving Repr

/-- Embeds the successful path of detect_table (table.py lines 163-211) from
the horizontal and vertical line masks onward: combined/intersection masks,
line-pixel ratio, projection-based line positions (with thresholds
max(10, int(w*0.35)) resp. max(10, int(h*0.35)), table.py lines 101-113),
and the detection decision (lines 190-195).  The stored line_pixel_ratio
field is clamp01(line_ratio * 10.0) (line 205), not the raw ratio. -/
def detectTableFromMasks (w h : ℕ) (horizontal vertical : Mask) :
    TableDetectResult :=
  let combined := maskOr horizontal vertical
  let intersections := maskAnd horizontal vertical
  let totalPixels : ℚ := (max 1 (h * w) : ℕ)
  let lineRatio : ℚ := (countNonzero combined : ℚ) / totalPixels
  let intersectionsCount : ℕ := countNonzero intersections
  let x_lines :=
    segmentsToCenters (activeIndices w (colProj vertical) (max 10 (35 * h / 100)))
  let y_lines :=
    segmentsToCenters (activeIndices h (rowProj horizontal) (max 10 (35 * w / 100)))
  let minLinesOk := decide (3 ≤ x_lines.length) && decide (3 ≤ y_lines.length)
  let ratioOk := decide ((8 : ℚ)/1000 ≤ lineRatio)
  let intersectionsOk := decide (200 ≤ intersectionsCount)
  { detected := minLinesOk && (ratioOk || intersectionsOk)
    grid_detected := minLinesOk
    method := "grid_lines_v1"
    line_pixel_ratio := clamp01 (lineRatio * 10)
    intersections_count := intersectionsCount
    x_lines := x_lines
    y_lines := y_lines }

/-- On non-negative inputs clamp01 is truncation at 1. -/
theorem clamp01_eq_min_one (v : ℚ) (hv : 0 ≤ v) : clamp01 v = min 1 v := by
  unfold clamp01
  split
  · linarith
  · split
    · rw [min_eq_left]
      linarith
    · rw [min_eq_right]
      linarith

/-! ## Theorems for the orchestrator claims -/

/-- C1 counterexample: in the loop body of extract_visuals, a region whose
table detection returns detected=false does not get bar-chart detection run
on it — the claim says bar detection is run for every such region, but the
orchestrator never invokes detect_bar_chart at all. -/
theorem extract_visuals_no_bar_detect_at_concrete_input :
    Stage.barDetect ∉ (processAsset (1/2) false 0 false 0).stages := by
  decide

/-- C1 amended: in extract_visuals every region is OCR-processed and then
table-tested, a region is promoted to "table" exactly when table detection
fires, and bar-chart detection and extraction are never run, so no region is
ever promoted to "chart". -/
theorem extract_visuals_stage_structure (conf0 tableConf ocrConf : ℚ)
    (td otp : Bool) :
    Stage.barDetect ∉ (processAsset conf0 td tableConf otp ocrConf).stages ∧
    Stage.barExtract ∉ (processAsset conf0 td tableConf otp ocrConf).stages ∧
    (processAsset conf0 td tableConf otp ocrConf).asset_type ≠ "chart" ∧
    ((processAsset conf0 td tableConf otp ocrConf).asset_type = "table" ↔
      td = true) ∧
    (processAsset conf0 td tableConf otp ocrConf).stages.take 2 =
      [Stage.ocrLite, Stage.tableDetect] := by
  cases td <;> cases otp <;> simp [processAsset]

/-- C2 counterexample: with a detected table of extraction confidence 9/10
and no OCR text, the final asset confidence is 1/4, although the extractor
produced 9/10 which is higher than 1/4 — so the no-OCR 0.25 cap does lower a
confidence set from a successful extraction, contrary to the claim. -/
theorem confidence_cap_overrides_extractor_at_concrete_input :
    (processAsset (1/2) true (9/10) false 0).confidence = 1/4 ∧
    (1/4 : ℚ) < 9/10 := by
  constructor
  · norm_num [processAsset]
  · norm_num

/-- C2 amended: the per-asset confidence rule of extract_visuals applies
after the extractor bump — with current = max(initial, table confidence)
when a table was extracted — and reads: if OCR text is present the final
confidence is max(current, OCR confidence), which never falls below the
extractor confidence; if OCR text is absent it is min(current, 1/4), which
can lower a confidence set from a successful extraction down to 1/4. -/
theorem confidence_rule_structure (conf0 tableConf ocrConf : ℚ)
    (td otp : Bool) :
    (processAsset conf0 td tableConf otp ocrConf).confidence =
      (if otp then max (if td then max conf0 tableConf else conf0) ocrConf
       else min (if td then max conf0 tableConf else conf0) (1/4)) ∧
    (otp = true → td = true →
      tableConf ≤ (processAsset conf0 td tableConf otp ocrConf).confidence) ∧
    (otp = false →
      (processAsset conf0 td tableConf otp ocrConf).confidence ≤ 1/4) := by
  refine ⟨by cases td <;> cases otp <;> simp [processAsset], ?_, ?_⟩
  · intro h1 h2
    subst h1; subst h2
    simp only [processAsset]
    exact le_max_of_le_left (le_max_right _ _)
  · intro h1
    subst h1
    cases td <;> simp [processAsset]

/-- Witness for the C2 amended theorem at a concrete input: with OCR text
present the extractor confidence 9/10 survives into the final value. -/
theorem confidence_rule_structure_witness :
    (9/10 : ℚ) ≤ (processAsset (1/2) true (9/10) true (3/10)).confidence :=
  (confidence_rule_structure (1/2) (9/10) (3/10) true true).2.1 rfl rfl

/-- C9: a request whose bytes cannot be fetched yields HTTP 200 with exactly
one asset of type "unknown", confidence 0, error flag image_load_failed and
no image hash; a request whose bytes decode-fail yields the same shape with
error flag image_decode_failed and the SHA-256 hex digest of the raw bytes
as image_hash. -/
theorem fetch_decode_failure_response (sha : List ℕ → String)
    (fetched : Option (List ℕ)) (decodeOk : Bool) :
    (fetched = none →
      fetchDecodePhase sha fetched decodeOk =
        Sum.inl { status := 200
                  assets := [{ asset_type := "unknown", confidence := 0,
                               errorFlag := some "image_load_failed",
                               image_hash := none }] }) ∧
    (∀ bytes, fetched = some bytes → bytes ≠ [] → decodeOk = false →
      fetchDecodePhase sha fetched decodeOk =
        Sum.inl { status := 200
                  assets := [{ asset_type := "unknown", confidence := 0,
                               errorFlag := some "image_decode_failed",
                               image_hash := some (sha bytes) }] }) := by
  constructor
  · rintro rfl
    rfl
  · rintro bytes rfl hb rfl
    simp [fetchDecodePhase, hb]

/-- Witness for C9 at concrete inputs: a failed fetch and a failed decode of
the single byte 7 under a fixed digest function. -/
theorem fetch_decode_failure_response_witness :
    fetchDecodePhase (fun _ => "abc") none true =
      Sum.inl { status := 200
                assets := [{ asset_type := "unknown", confidence := 0,
                             errorFlag := some "image_load_failed",
                             image_hash := none }] } ∧
    fetchDecodePhase (fun _ => "abc") (some [7]) false =
      Sum.inl { status := 200
                assets := [{ asset_type := "unknown", confidence := 0,
                             errorFlag := some "image_decode_failed",
                             image_hash := some "abc" }] } :=
  ⟨(fetch_decode_failure_response (fun _ => "abc") none true).1 rfl,
   (fetch_decode_failure_response (fun _ => "abc") (some [7]) false).2
     [7] rfl (by simp) rfl⟩

/-- C3 counterexample: on a 2x2 image whose horizontal mask holds exactly one
foreground pixel (and empty vertical mask), the fraction of pixels in the
union mask is 1/4, but the returned line_pixel_ratio field is
clamp01(10 * 1/4) = 1 — the stored field is not the raw fraction. -/
theorem line_pixel_ratio_not_raw_fraction_at_concrete_input :
    (detectTableFromMasks 2 2 [[true, false], [false, false]]
        [[false, false], [false, false]]).line_pixel_ratio ≠
      (countNonzero (maskOr [[true, false], [false, false]]
        [[false, false], [false, false]]) : ℚ) / (2 * 2) := by
  have h1 : countNonzero (maskOr [[true, false], [false, false]]
      [[false, false], [false, false]]) = 1 := rfl
  rw [h1]
  norm_num [detectTableFromMasks, h1, clamp01, activeIndices,
    segmentsToCenters, rowProj, colProj]

/-- C3 amended: the line_pixel_ratio field returned by detect_table equals
clamp01 of ten times the raw fraction nonzero(combined)/(W*H), i.e.
min(1, 10 * nonzero(combined) / (W*H)); the raw fraction itself is only used
internally for the detection decision. -/
theorem line_pixel_ratio_is_scaled_fraction (w h : ℕ) (hm vm : Mask) :
    (detectTableFromMasks w h hm vm).line_pixel_ratio =
      min 1 (10 * ((countNonzero (maskOr hm vm) : ℚ) / (max 1 (h * w) : ℕ))) := by
  have hnn : (0 : ℚ) ≤ (countNonzero (maskOr hm vm) : ℚ) / (max 1 (h * w) : ℕ) := by
    apply div_nonneg
    · exact_mod_cast Nat.zero_le _
    · exact_mod_cast Nat.zero_le _
  simp only [detectTableFromMasks]
  rw [mul_comm]
  exact clamp01_eq_min_one _ (by positivity)

/-- C7: for every pair of line masks, the detect_table decision satisfies
detected = true iff (at least 3 x-lines and 3 y-lines were recovered) and
(the raw line-pixel fraction is at least 0.008 or the intersection count is
at least 200); grid_detected = true iff the line-count condition alone
holds. -/
theorem detect_table_decision (w h : ℕ) (hm vm : Mask) :
    ((detectTableFromMasks w h hm vm).detected = true ↔
      (3 ≤ (detectTableFromMasks w h hm vm).x_lines.length ∧
       3 ≤ (detectTableFromMasks w h hm vm).y_lines.length ∧
       ((8 : ℚ)/1000 ≤ (countNonzero (maskOr hm vm) : ℚ) / (max 1 (h * w) : ℕ) ∨
        200 ≤ (detectTableFromMasks w h hm vm).intersections_count))) ∧
    ((detectTableFromMasks w h hm vm).grid_detected = true ↔
      (3 ≤ (detectTableFromMasks w h hm vm).x_lines.length ∧
       3 ≤ (detectTableFromMasks w h hm vm).y_lines.length)) := by
  simp only [detectTableFromMasks, Bool.and_eq_true, Bool.or_eq_true,
    decide_eq_true_eq]
  constructor
  · constructor
    · rintro ⟨⟨h1, h2⟩, h3⟩
      exact ⟨h1, h2, h3⟩
    · rintro ⟨h1, h2, h3⟩
      exact ⟨⟨h1, h2⟩, h3⟩
  · tauto

/-! ## Maximal-run structure of the recovered line positions (claim C10) -/

/-- c is the integer midpoint of a maximal run of consecutive elements of l:
a segment [s, p] entirely inside l whose predecessor s-1 and successor p+1
are absent, with c = (s + p) / 2 (integer division). -/
def IsMaxRunMid (l : List ℕ) (c : ℕ) : Prop :=
  ∃ s p, s ∈ l ∧ p ∈ l ∧ s ≤ p ∧
    (∀ k, s ≤ k → k ≤ p → k ∈ l) ∧
    (∀ k ∈ l, k + 1 ≠ s) ∧
    p + 1 ∉ l ∧
    c = (s + p) / 2

/-- Every center emitted by the run-collapsing loop is the midpoint of a
maximal run of the ambient active-index list L.  The invariants mirror the
loop state of _segments_to_centers: [start, prev] is an open run inside L,
nothing in L precedes start contiguously, and rest holds exactly the
elements of L beyond prev, in ascending order. -/
theorem segCentersGo_spec (L : List ℕ) :
    ∀ (rest : List ℕ) (start prev : ℕ),
    start ≤ prev →
    (∀ k, start ≤ k → k ≤ prev → k ∈ L) →
    (∀ k ∈ L, k + 1 ≠ start) →
    (∀ j ∈ rest, j ∈ L) →
    (∀ j ∈ rest, prev < j) →
    rest.Pairwise (· < ·) →
    (∀ j ∈ L, prev < j → j ∈ rest) →
    ∀ c ∈ segCentersGo start prev rest, IsMaxRunMid L c := by
  intro rest
  induction rest with
  | nil =>
      intro start prev hsp hrun hpred _ _ _ hcover c hc
      simp only [segCentersGo, List.mem_singleton] at hc
      subst hc
      refine ⟨start, prev, hrun start le_rfl hsp, hrun prev hsp le_rfl,
        hsp, hrun, hpred, ?_, rfl⟩
      intro hmem
      have := hcover (prev + 1) hmem (Nat.lt_succ_self prev)
      simp at this
  | cons i rest ih =>
      intro start prev hsp hrun hpred hsub hgt hpw hcover c hc
      have hi_mem : i ∈ L := hsub i (List.mem_cons_self i rest)
      have hi_gt : prev < i := hgt i (List.mem_cons_self i rest)
      rw [List.pairwise_cons] at hpw
      obtain ⟨hpw_head, hpw_tail⟩ := hpw
      simp only [segCentersGo] at hc
      by_cases hstep : i = prev + 1
      · rw [if_pos hstep] at hc
        refine ih start i (by omega) ?_ hpred ?_ ?_ hpw_tail ?_ c hc
        · intro k hk1 hk2
          rcases Nat.lt_or_ge k i with hk | hk
          · exact hrun k hk1 (by omega)
          · have : k = i := le_antisymm hk2 hk
            subst this
            exact hi_mem
        · intro j hj
          exact hsub j (List.mem_cons_of_mem i hj)
        · exact hpw_head
        · intro j hjL hji
          have := hcover j hjL (by omega)
          rcases List.mem_cons.mp this with hj | hj
          · omega
          · exact hj
      · rw [if_neg hstep] at hc
        have hi2 : prev + 2 ≤ i := by omega
        rcases List.mem_cons.mp hc with hc | hc
        · subst hc
          refine ⟨start, prev, hrun start le_rfl hsp, hrun prev hsp le_rfl,
            hsp, hrun, hpred, ?_, rfl⟩
          intro hmem
          have := hcover (prev + 1) hmem (Nat.lt_succ_self prev)
          rcases List.mem_cons.mp this with hj | hj
          · omega
          · have := hpw_head _ hj
            omega
        · refine ih i i le_rfl ?_ ?_ ?_ ?_ hpw_tail ?_ c hc
          · intro k hk1 hk2
            have : k = i := le_antisymm hk2 hk1
            subst this
            exact hi_mem
          · intro k hkL hk
            have hk1 : prev < k := by omega
            have := hcover k hkL hk1
            rcases List.mem_cons.mp this with hj | hj
            · omega
            · have := hpw_head _ hj
              omega
          · intro j hj
            exact hsub j (List.mem_cons_of_mem i hj)
          · exact hpw_head
          · intro j hjL hji
            have := hcover j hjL (by omega)
            rcases List.mem_cons.mp this with hj | hj
            · omega
            · exact hj

/-- The centers emitted by the run-collapsing loop are strictly increasing
and bounded below by start. -/
theorem segCentersGo_sorted (rest : List ℕ) :
    ∀ (start prev : ℕ),
    start ≤ prev →
    (∀ j ∈ rest, prev < j) →
    rest.Pairwise (· < ·) →
    (segCentersGo start prev rest).Pairwise (· < ·) ∧
      ∀ c ∈ segCentersGo start prev rest, start ≤ c := by
  induction rest with
  | nil =>
      intro start prev hsp _ _
      constructor
      · simp [segCentersGo]
      · intro c hc
        simp only [segCentersGo, List.mem_singleton] at hc
        omega
  | cons i rest ih =>
      intro start prev hsp hgt hpw
      have hi_gt : prev < i := hgt i (List.mem_cons_self i rest)
      rw [List.pairwise_cons] at hpw
      obtain ⟨hpw_head, hpw_tail⟩ := hpw
      simp only [segCentersGo]
      by_cases hstep : i = prev + 1
      · rw [if_pos hstep]
        exact ih start i (by omega) hpw_head hpw_tail
      · rw [if_neg hstep]
        obtain ⟨ihp, ihb⟩ := ih i i le_rfl hpw_head hpw_tail
        constructor
        · rw [List.pairwise_cons]
          refine ⟨?_, ihp⟩
          intro c hc
          have := ihb c hc
          omega
        · intro c hc
          rcases List.mem_cons.mp hc with hc | hc
          · omega
          · have := ihb c hc
            omega

/-- Top-level version: on a strictly ascending list, _segments_to_centers
produces strictly increasing midpoints of its maximal runs. -/
theorem segmentsToCenters_spec (L : List ℕ) (hpw : L.Pairwise (· < ·)) :
    (segmentsToCenters L).Pairwise (· < ·) ∧
      ∀ c ∈ segmentsToCenters L, IsMaxRunMid L c := by
  cases L with
  | nil =>
      constructor
      · simp [segmentsToCenters]
      · intro c hc
        simp [segmentsToCenters] at hc
  | cons i rest =>
      rw [List.pairwise_cons] at hpw
      obtain ⟨hpw_head, hpw_tail⟩ := hpw
      constructor
      · exact (segCentersGo_sorted rest i i le_rfl hpw_head hpw_tail).1
      · intro c hc
        refine segCentersGo_spec (i :: rest) rest i i le_rfl ?_ ?_ ?_
          hpw_head hpw_tail ?_ c hc
        · intro k hk1 hk2
          have : k = i := le_antisymm hk2 hk1
          subst this
          exact List.mem_cons_self _ _
        · intro k hkL
          rcases List.mem_cons.mp hkL with hk | hk
          · omega
          · have := hpw_head _ hk
            omega
        · intro j hj
          exact List.mem_cons_of_mem i hj
        · intro j hjL hji
          rcases List.mem_cons.mp hjL with hj | hj
          · omega
          · exact hj

/-- activeIndices is strictly ascending and bounded by the axis length. -/
theorem activeIndices_sorted (n : ℕ) (proj : ℕ → ℕ) (th : ℕ) :
    (activeIndices n proj th).Pairwise (· < ·) ∧
      ∀ i ∈ activeIndices n proj th, i < n := by
  constructor
  · exact (List.pairwise_lt_range n).filter _
  · intro i hi
    rw [activeIndices, List.mem_filter] at hi
    exact List.mem_range.mp hi.1

/-- C10: the x_lines and y_lines returned by detect_table are strictly
increasing, lie inside the image bounds, and each entry is the integer
midpoint of a maximal run of consecutive active projection indices. -/
theorem detect_table_line_positions (w h : ℕ) (hm vm : Mask) :
    ((detectTableFromMasks w h hm vm).x_lines.Pairwise (· < ·) ∧
      (∀ x ∈ (detectTableFromMasks w h hm vm).x_lines, x < w) ∧
      (∀ x ∈ (detectTableFromMasks w h hm vm).x_lines,
        IsMaxRunMid (activeIndices w (colProj vm) (max 10 (35 * h / 100))) x)) ∧
    ((detectTableFromMasks w h hm vm).y_lines.Pairwise (· < ·) ∧
      (∀ y ∈ (detectTableFromMasks w h hm vm).y_lines, y < h) ∧
      (∀ y ∈ (detectTableFromMasks w h hm vm).y_lines,
        IsMaxRunMid (activeIndices h (rowProj hm) (max 10 (35 * w / 100))) y)) := by
  have hx := activeIndices_sorted w (colProj vm) (max 10 (35 * h / 100))
  have hy := activeIndices_sorted h (rowProj hm) (max 10 (35 * w / 100))
  have hsx := segmentsToCenters_spec _ hx.1
  have hsy := segmentsToCenters_spec _ hy.1
  have hxl : (detectTableFromMasks w h hm vm).x_lines =
      segmentsToCenters (activeIndices w (colProj vm) (max 10 (35 * h / 100))) := rfl
  have hyl : (detectTableFromMasks w h hm vm).y_lines =
      segmentsToCenters (activeIndices h (rowProj hm) (max 10 (35 * w / 100))) := rfl
  rw [hxl, hyl]
  refine ⟨⟨hsx.1, ?_, hsx.2⟩, ⟨hsy.1, ?_, hsy.2⟩⟩
  · intro x hxm
    obtain ⟨s, p, _, hp, _, _, _, _, hc⟩ := hsx.2 x hxm
    have := hx.2 p hp
    omega
  · intro y hym
    obtain ⟨s, p, _, hp, _, _, _, _, hc⟩ := hsy.2 y hym
    have := hy.2 p hp
    omega

/-! ## Table extractor grid-slice path (table.py lines 380-442)

Cell OCR is external; the model takes the text stored for cell (row, col) as
a parameter (the code stores txt if txt else "", so the parameter is exactly
the string that ends up in the row).  The deadline is modelled as a budget:
a clock advances by one at each cell OCR call, and a deadline check at clock
t reports expiry iff fuel <= t. -/

/-- Embeds _cap_lines (table.py lines 279-285): dedup, sort ascending, and
when more than cap entries remain downsample evenly via
np.linspace(0, len-1, cap).astype(int) — index i picks position
floor(i*(len-1)/(cap-1)). -/
def capLines (lines : List ℕ) (cap : ℕ) : List ℕ :=
  let xs := List.insertionSort (· ≤ ·) lines.dedup
  if xs.length ≤ cap then xs
  else (List.range cap).map (fun i => xs.getD (i * (xs.length - 1) / (cap - 1)) 0)

/-- Inner cell loop of the grid-slice path (table.py lines 411-424): before
each cell the deadline is tested; on expiry the partially built row is kept
and the flag is set.  Returns (row cells, clock after the loop, expiry
flag). -/
def cellLoop (ct : ℕ → String) (fuel : ℕ) : List ℕ → ℕ → List String × ℕ × Bool
  | [], clock => ([], clock, false)
  | ci :: rest, clock =>
      if fuel ≤ clock then ([], clock, true)
      else
        let r := cellLoop ct fuel rest (clock + 1)
        (ct ci :: r.1, r.2.1, r.2.2)

/-- Outer row loop of the grid-slice path (table.py lines 403-426): before
each row the deadline is tested; the row built by the inner loop is always
appended, even when the inner loop stopped early. -/
def rowLoop (ct : ℕ → ℕ → String) (fuel mc : ℕ) :
    List ℕ → ℕ → List (List String) × Bool
  | [], _ => ([], false)
  | ri :: rest, clock =>
      if fuel ≤ clock then ([], true)
      else
        let cell := cellLoop (ct ri) fuel (List.range mc) clock
        let tail := rowLoop ct fuel mc rest cell.2.1
        (cell.1 :: tail.1, cell.2.2 || tail.2)

/-- Embeds the grid-slice path of extract_table (table.py lines 383-431):
entry deadline check, line capping to 60 x-lines and 80 y-lines, row cap 40
and column cap 20, then the row/cell loops.  Returns (rows, expiry flag). -/
def extractTableGridModel (ct : ℕ → ℕ → String) (xLines yLines : List ℕ)
    (fuel : ℕ) : List (List String) × Bool :=
  if fuel = 0 then ([], true)
  else
    let xs := capLines xLines 60
    let ys := capLines yLines 80
    rowLoop ct fuel (min (xs.length - 1) 20) (List.range (min (ys.length - 1) 40)) 0

/-- Behaviour of the inner cell loop: the row never exceeds the column
count, reaches it exactly when no expiry occurred, expiry implies the clock
passed the budget, and the clock never decreases. -/
theorem cellLoop_spec (ct : ℕ → String) (fuel : ℕ) :
    ∀ (cols : List ℕ) (clock : ℕ),
    (cellLoop ct fuel cols clock).1.length ≤ cols.length ∧
    ((cellLoop ct fuel cols clock).2.2 = false →
      (cellLoop ct fuel cols clock).1.length = cols.length) ∧
    ((cellLoop ct fuel cols clock).2.2 = true →
      fuel ≤ (cellLoop ct fuel cols clock).2.1) ∧
    clock ≤ (cellLoop ct fuel cols clock).2.1 := by
  intro cols
  induction cols with
  | nil =>
      intro clock
      simp [cellLoop]
  | cons ci rest ih =>
      intro clock
      simp only [cellLoop]
      by_cases hf : fuel ≤ clock
      · rw [if_pos hf]
        refine ⟨by simp, by simp, fun _ => hf, le_rfl⟩
      · rw [if_neg hf]
        obtain ⟨h1, h2, h3, h4⟩ := ih (clock + 1)
        dsimp only
        refine ⟨by simpa using h1, ?_, h3, by omega⟩
        intro hexp
        simpa using h2 hexp

/-- A row loop entered with the budget already spent stops at once. -/
theorem rowLoop_expired (ct : ℕ → ℕ → String) (fuel mc ri : ℕ)
    (rest : List ℕ) (clock : ℕ) (h : fuel ≤ clock) :
    rowLoop ct fuel mc (ri :: rest) clock = ([], true) := by
  simp [rowLoop, h]

/-- Shape of the produced rows: every row has at most mc cells, every row
except possibly the last has exactly mc cells, and when no expiry happened
every row has exactly mc cells and there is one row per row index. -/
theorem rowLoop_shape (ct : ℕ → ℕ → String) (fuel mc : ℕ) :
    ∀ (rows : List ℕ) (clock : ℕ),
    (∀ row ∈ (rowLoop ct fuel mc rows clock).1, row.length ≤ mc) ∧
    (∀ row ∈ (rowLoop ct fuel mc rows clock).1.dropLast, row.length = mc) ∧
    ((rowLoop ct fuel mc rows clock).2 = false →
      (∀ row ∈ (rowLoop ct fuel mc rows clock).1, row.length = mc) ∧
      (rowLoop ct fuel mc rows clock).1.length = rows.length) := by
  intro rows
  induction rows with
  | nil =>
      intro clock
      simp [rowLoop]
  | cons ri rest ih =>
      intro clock
      simp only [rowLoop]
      by_cases hf : fuel ≤ clock
      · rw [if_pos hf]
        simp
      · rw [if_neg hf]
        obtain ⟨hc1, hc2, hc3, _⟩ := cellLoop_spec (ct ri) fuel (List.range mc) clock
        obtain ⟨ih1, ih2, ih3⟩ :=
          ih (cellLoop (ct ri) fuel (List.range mc) clock).2.1
        refine ⟨?_, ?_, ?_⟩
        · intro row hrow
          rcases List.mem_cons.mp hrow with hrow | hrow
          · subst hrow
            simpa using hc1
          · exact ih1 row hrow
        · intro row hrow
          rcases hn : (rowLoop ct fuel mc rest
              (cellLoop (ct ri) fuel (List.range mc) clock).2.1).1 with _ | ⟨t, ts⟩
          · rw [hn] at hrow
            simp at hrow
          · rw [hn, List.dropLast_cons₂] at hrow
            rcases List.mem_cons.mp hrow with hrow | hrow
            · subst hrow
              by_cases hexp : (cellLoop (ct ri) fuel (List.range mc) clock).2.2 = true
              · exfalso
                have hclk := hc3 hexp
                cases rest with
                | nil =>
                    simp [rowLoop] at hn
                | cons r2 rest2 =>
                    rw [rowLoop_expired ct fuel mc r2 rest2 _ hclk] at hn
                    simp at hn
              · have := hc2 (by simpa using hexp)
                simpa using this
            · have := ih2 row
              rw [hn] at this
              exact this (by simpa [List.dropLast_cons₂] using hrow)
        · intro hflag
          rw [Bool.or_eq_false_iff] at hflag
          obtain ⟨hce, hte⟩ := hflag
          obtain ⟨iha, ihb⟩ := ih3 hte
          refine ⟨?_, ?_⟩
          · intro row hrow
            rcases List.mem_cons.mp hrow with hrow | hrow
            · subst hrow
              simpa using hc2 hce
            · exact iha row hrow
          · simpa using ihb

/-- C4 counterexample: with three x-lines and three y-lines (a 2x2 grid) and
a deadline that fires after the third cell OCR, the grid-slice path returns
rows of lengths 2 and 1 — not a list of equal-length lists, although the
run is exactly one where the deadline fires mid-extraction. -/
theorem grid_rows_unequal_on_mid_row_deadline :
    ((extractTableGridModel (fun _ _ => "X") [0, 10, 20] [0, 10, 20] 3).1.map
        List.length) = [2, 1] ∧
    (extractTableGridModel (fun _ _ => "X") [0, 10, 20] [0, 10, 20] 3).2 = true := by
  constructor <;> rfl

/-- C4 amended: on the grid-slice path every cell is a string and every row
except possibly the last has exactly min(|x_lines|-1, 20) cells; the last
row may be shorter when the deadline fires mid-row (it is kept, per the
retention contract); when the deadline never fires, all rows have exactly
that many cells and there are min(|y_lines|-1, 40) rows. -/
theorem grid_rows_shape (ct : ℕ → ℕ → String) (xLines yLines : List ℕ)
    (fuel : ℕ) :
    (∀ row ∈ (extractTableGridModel ct xLines yLines fuel).1,
      row.length ≤ min ((capLines xLines 60).length - 1) 20) ∧
    (∀ row ∈ (extractTableGridModel ct xLines yLines fuel).1.dropLast,
      row.length = min ((capLines xLines 60).length - 1) 20) ∧
    ((extractTableGridModel ct xLines yLines fuel).2 = false →
      (∀ row ∈ (extractTableGridModel ct xLines yLines fuel).1,
        row.length = min ((capLines xLines 60).length - 1) 20) ∧
      (extractTableGridModel ct xLines yLines fuel).1.length =
        min ((capLines yLines 80).length - 1) 40) := by
  by_cases hf : fuel = 0
  · subst hf
    simp [extractTableGridModel]
  · have hmodel : extractTableGridModel ct xLines yLines fuel =
        rowLoop ct fuel (min ((capLines xLines 60).length - 1) 20)
          (List.range (min ((capLines yLines 80).length - 1) 40)) 0 := by
      simp [extractTableGridModel, hf]
    obtain ⟨h1, h2, h3⟩ := rowLoop_shape ct fuel
      (min ((capLines xLines 60).length - 1) 20)
      (List.range (min ((capLines yLines 80).length - 1) 40)) 0
    rw [hmodel]
    refine ⟨h1, h2, ?_⟩
    intro hflag
    obtain ⟨ha, hb⟩ := h3 hflag
    exact ⟨ha, by simpa using hb⟩

/-- Witness for the C4 amended theorem: a 2x2 grid with ample budget yields
two rows of two cells and no expiry flag. -/
theorem grid_rows_shape_witness :
    (∀ row ∈ (extractTableGridModel (fun _ _ => "X") [0, 10, 20] [0, 10, 20] 100).1,
      row.length = min ((capLines [0, 10, 20] 60).length - 1) 20) ∧
    (extractTableGridModel (fun _ _ => "X") [0, 10, 20] [0, 10, 20] 100).1.length =
      min ((capLines [0, 10, 20] 80).length - 1) 40 :=
  (grid_rows_shape (fun _ _ => "X") [0, 10, 20] [0, 10, 20] 100).2.2 rfl

/-! ## Bar-chart detector (chart_bar.py lines 40-268)

The OpenCV frontend (binarize, thin-line subtraction, denoise, contour
extraction) is external; the model starts at the list of contour bounding
rectangles, which is where chart_bar.py line 226 resumes pure computation.
numpy std involves a square root, which is not rational; it enters the model
as the function parameter stdFn, used exactly where np.std is (the claims
settled here do not depend on its value).  Python sorted() is stable; it is
embedded as a stable insertion sort. -/

/-- A contour bounding rectangle (x, y, w, h) in pixels (chart_bar.py
line 44). -/
structure Rect where
  x : ℤ
  y : ℤ
  w : ℤ
  h : ℤ
deriving DecidableEq, Repr

/-- Embeds the BarChartDetectResult dataclass (chart_bar.py lines 40-46). -/
structure BarChartDetectResult where
  detected : Bool
  bar_count : ℕ
  bars : List Rect
  baseline_y : ℤ
  score : ℚ
deriving Repr

/-- Stable insertion used to embed Python sorted(): the new element goes
after all existing elements whose key does not exceed its key. -/
def insertByKey (key : Rect → ℚ) (a : Rect) : List Rect → List Rect
  | [] => [a]
  | b :: l => if key b ≤ key a then b :: insertByKey key a l else a :: b :: l

/-- Embeds Python sorted(l, key=key): stable, ascending by key. -/
def sortByKey (key : Rect → ℚ) (l : List Rect) : List Rect :=
  l.foldl (fun acc a => insertByKey key a acc) []

theorem insertByKey_mem (key : Rect → ℚ) (a x : Rect) (l : List Rect) :
    x ∈ insertByKey key a l ↔ x = a ∨ x ∈ l := by
  induction l with
  | nil => simp [insertByKey]
  | cons b l ih =>
      simp only [insertByKey]
      by_cases hk : key b ≤ key a
      · rw [if_pos hk]
        simp only [List.mem_cons, ih]
        tauto
      · rw [if_neg hk]
        simp only [List.mem_cons]

theorem insertByKey_length (key : Rect → ℚ) (a : Rect) (l : List Rect) :
    (insertByKey key a l).length = l.length + 1 := by
  induction l with
  | nil => simp [insertByKey]
  | cons b l ih =>
      simp only [insertByKey]
      by_cases hk : key b ≤ key a
      · rw [if_pos hk]
        simp [ih]
      · rw [if_neg hk]
        simp

theorem insertByKey_sorted (key : Rect → ℚ) (a : Rect) (l : List Rect)
    (hl : l.Pairwise (fun p q => key p ≤ key q)) :
    (insertByKey key a l).Pairwise (fun p q => key p ≤ key q) := by
  induction l with
  | nil => simp [insertByKey]
  | cons b l ih =>
      rw [List.pairwise_cons] at hl
      obtain ⟨hb, hl⟩ := hl
      simp only [insertByKey]
      by_cases hk : key b ≤ key a
      · rw [if_pos hk]
        rw [List.pairwise_cons]
        refine ⟨?_, ih hl⟩
        intro q hq
        rcases (insertByKey_mem key a q l).mp hq with hq | hq
        · subst hq
          exact hk
        · exact hb q hq
      · rw [if_neg hk]
        rw [List.pairwise_cons]
        refine ⟨?_, List.pairwise_cons.mpr ⟨hb, hl⟩⟩
        intro q hq
        rcases List.mem_cons.mp hq with hq | hq
        · subst hq
          linarith [lt_of_not_le hk]
        · have := hb q hq
          linarith [lt_of_not_le hk]

theorem sortByKey_mem (key : Rect → ℚ) (l : List Rect) (x : Rect) :
    x ∈ sortByKey key l ↔ x ∈ l := by
  have hgen : ∀ (m : List Rect) (acc : List Rect),
      x ∈ m.foldl (fun acc a => insertByKey key a acc) acc ↔ x ∈ acc ∨ x ∈ m := by
    intro m
    induction m with
    | nil => simp
    | cons a m ih =>
        intro acc
        rw [List.foldl_cons, ih, insertByKey_mem]
        simp only [List.mem_cons]
        tauto
  rw [sortByKey, hgen]
  simp

theorem sortByKey_length (key : Rect → ℚ) (l : List Rect) :
    (sortByKey key l).length = l.length := by
  have hgen : ∀ (m : List Rect) (acc : List Rect),
      (m.foldl (fun acc a => insertByKey key a acc) acc).length =
        acc.length + m.length := by
    intro m
    induction m with
    | nil => simp
    | cons a m ih =>
        intro acc
        rw [List.foldl_cons, ih, insertByKey_length]
        simp only [List.length_cons]
        omega
  rw [sortByKey, hgen]
  simp

theorem sortByKey_sorted (key : Rect → ℚ) (l : List Rect) :
    (sortByKey key l).Pairwise (fun p q => key p ≤ key q) := by
  have hgen : ∀ (m : List Rect) (acc : List Rect),
      acc.Pairwise (fun p q => key p ≤ key q) →
      (m.foldl (fun acc a => insertByKey key a acc) acc).Pairwise
        (fun p q => key p ≤ key q) := by
    intro m
    induction m with
    | nil =>
        intro acc hacc
        simpa using hacc
    | cons a m ih =>
        intro acc hacc
        rw [List.foldl_cons]
        exact ih _ (insertByKey_sorted key a acc hacc)
  exact hgen l [] (by simp)

/-- Candidate filter of _filter_bar_candidates (chart_bar.py lines 114-140);
int() of a non-negative float maps to integer floor division. -/
def keepBarCandidate (imgW imgH : ℤ) (r : Rect) : Bool :=
  decide (0 < r.w ∧ 0 < r.h ∧
    max 80 (8 * (imgW * imgH) / 100000) ≤ r.w * r.h ∧
    ¬ ((r.h : ℚ) / max 1 (r.w : ℚ) < 55/100) ∧
    max 18 (6 * imgH / 100) ≤ r.h ∧
    max 5 (8 * imgW / 1000) ≤ r.w ∧
    r.w ≤ 6 * imgW / 10 ∧
    r.h ≤ 9 * imgH / 10)

/-- Embeds _filter_bar_candidates (chart_bar.py lines 114-140). -/
def filterBarCandidates (imgW imgH : ℤ) (rects : List Rect) : List Rect :=
  rects.filter (keepBarCandidate imgW imgH)

/-- Horizontal center x + w/2 of a rectangle (chart_bar.py lines 148-153). -/
def rectCx (r : Rect) : ℚ := (r.x : ℚ) + (r.w : ℚ) / 2

/-- Cluster loop of _cluster_by_x (chart_bar.py lines 149-161): walk the
center-sorted rectangles, extending the current cluster while the next
center is within merge_px of the running mean center, else close the
cluster and open a new one. -/
def clusterGo (mergePx : ℚ) : List Rect → List Rect → ℚ → List (List Rect)
  | [], cur, _ => [cur]
  | r :: rest, cur, curCx =>
      if |rectCx r - curCx| ≤ mergePx then
        let cur2 := cur ++ [r]
        clusterGo mergePx rest cur2 ((cur2.map rectCx).sum / cur2.length)
      else cur :: clusterGo mergePx rest [r] (rectCx r)

/-- The cluster decomposition of _cluster_by_x before representative
selection. -/
def clusterClusters (mergePx : ℚ) : List Rect → List (List Rect)
  | [] => []
  | r :: rest => clusterGo mergePx rest [r] (rectCx r)

/-- Python max(c, key=area): the first element of largest area
(chart_bar.py line 166). -/
def maxByArea (c : List Rect) : Rect :=
  match c with
  | [] => ⟨0, 0, 0, 0⟩
  | r :: rest => rest.foldl (fun best q => if best.w * best.h < q.w * q.h then q else best) r

/-- Embeds _cluster_by_x (chart_bar.py lines 143-167): sort by center,
cluster, keep the largest-area representative per cluster. -/
def clusterByX (mergePx : ℚ) (rects : List Rect) : List Rect :=
  (clusterClusters mergePx (sortByKey rectCx rects)).map maxByArea

/-- Embeds np.median for a nonempty list (chart_bar.py line 239): midpoint
element of the sorted values, or the mean of the two middle ones. -/
def npMedian (l : List ℚ) : ℚ :=
  let s := List.insertionSort (· ≤ ·) l
  if s.length % 2 = 1 then s.getD (s.length / 2) 0
  else (s.getD (s.length / 2 - 1) 0 + s.getD (s.length / 2) 0) / 2

/-- Python int() truncation toward zero of a rational. -/
def ratTrunc (q : ℚ) : ℤ := if 0 ≤ q then ⌊q⌋ else ⌈q⌉

/-- Embeds detect_bar_chart from the contour bounding rectangles onward
(chart_bar.py lines 220-268): candidate filter, x-center clustering with
merge_px = max(6, int(img_w*0.02)), the under-3-bars early return, baseline
as int(np.median(bottoms)), the alignment/width-variation decision at
chart_bar.py line 251, and the score of lines 256-259.  np.std is the
parameter stdFn; width_cv = std(widths)/max(1e-6, mean(widths)). -/
def detectBarsFromRects (stdFn : List ℚ → ℚ) (imgW imgH : ℤ)
    (rects : List Rect) : BarChartDetectResult :=
  let candidates := filterBarCandidates imgW imgH rects
  if candidates = [] then ⟨false, 0, [], 0, 0⟩
  else
    let mergePx : ℚ := ((max 6 (2 * imgW / 100) : ℤ) : ℚ)
    let bars := clusterByX mergePx candidates
    if bars.length < 3 then ⟨false, bars.length, bars, 0, 0⟩
    else
      let bottoms : List ℚ := bars.map (fun r => ((r.y + r.h : ℤ) : ℚ))
      let baseline : ℤ := ratTrunc (npMedian bottoms)
      let baselineStd := stdFn bottoms
      let widths : List ℚ := bars.map (fun r => ((r.w : ℤ) : ℚ))
      let widthMean := widths.sum / (widths.length : ℚ)
      let widthCv := stdFn widths / max (1/1000000) widthMean
      let baselineTol : ℚ := max 6 (15 * (imgH : ℚ) / 1000)
      let aligned := (bottoms.filter (fun b => decide (|b - (baseline : ℚ)| ≤ baselineTol))).length
      let alignedRatio : ℚ := (aligned : ℚ) / ((max 1 bars.length : ℕ) : ℚ)
      if 7/10 ≤ alignedRatio ∧ widthCv ≤ 4/10 then
        let barCountScore := clamp01 (((bars.length : ℚ) - 2) / 6)
        let widthScore := clamp01 (1 - widthCv)
        let baselineScore := clamp01 (1 - baselineStd / max 1 (baselineTol * 2))
        let score := clamp01 (15/100 + 45/100 * barCountScore +
          25/100 * widthScore + 15/100 * baselineScore)
        ⟨true, bars.length, sortByKey (fun r => (r.x : ℚ)) bars, baseline, score⟩
      else ⟨false, bars.length, bars, baseline, 0⟩

/-- Elements of the clusters produced by the cluster loop all come from the
current open cluster or the remaining input. -/
theorem clusterGo_subset (mergePx : ℚ) :
    ∀ (rest cur : List Rect) (curCx : ℚ) (c : List Rect),
    c ∈ clusterGo mergePx rest cur curCx → ∀ r ∈ c, r ∈ cur ∨ r ∈ rest := by
  intro rest
  induction rest with
  | nil =>
      intro cur curCx c hc r hr
      simp only [clusterGo, List.mem_singleton] at hc
      subst hc
      exact Or.inl hr
  | cons q rest ih =>
      intro cur curCx c hc r hr
      simp only [clusterGo] at hc
      by_cases hm : |rectCx q - curCx| ≤ mergePx
      · rw [if_pos hm] at hc
        rcases ih _ _ c hc r hr with h | h
        · rcases List.mem_append.mp h with h | h
          · exact Or.inl h
          · right
            rcases List.mem_singleton.mp h with rfl
            exact List.mem_cons_self _ _
        · exact Or.inr (List.mem_cons_of_mem _ h)
      · rw [if_neg hm] at hc
        rcases List.mem_cons.mp hc with hc | hc
        · subst hc
          exact Or.inl hr
        · rcases ih _ _ c hc r hr with h | h
          · right
            rcases List.mem_singleton.mp h with rfl
            exact List.mem_cons_self _ _
          · exact Or.inr (List.mem_cons_of_mem _ h)

/-- The cluster loop never emits an empty cluster (the open cluster starts
nonempty and only grows). -/
theorem clusterGo_nonempty (mergePx : ℚ) :
    ∀ (rest cur : List Rect) (curCx : ℚ),
    cur ≠ [] → ∀ c ∈ clusterGo mergePx rest cur curCx, c ≠ [] := by
  intro rest
  induction rest with
  | nil =>
      intro cur curCx hcur c hc
      simp only [clusterGo, List.mem_singleton] at hc
      subst hc
      exact hcur
  | cons q rest ih =>
      intro cur curCx hcur c hc
      simp only [clusterGo] at hc
      by_cases hm : |rectCx q - curCx| ≤ mergePx
      · rw [if_pos hm] at hc
        exact ih _ _ (by simp) c hc
      · rw [if_neg hm] at hc
        rcases List.mem_cons.mp hc with hc | hc
        · subst hc
          exact hcur
        · exact ih _ _ (by simp) c hc

/-- Python max(c, key=area) returns an element of c when c is nonempty. -/
theorem maxByArea_mem (c : List Rect) (hc : c ≠ []) : maxByArea c ∈ c := by
  match c with
  | r :: rest =>
      have hgen : ∀ (l : List Rect) (b : Rect),
          l.foldl (fun best q => if best.w * best.h < q.w * q.h then q else best) b = b ∨
          l.foldl (fun best q => if best.w * best.h < q.w * q.h then q else best) b ∈ l := by
        intro l
        induction l with
        | nil => intro b; exact Or.inl rfl
        | cons q l ihl =>
            intro b
            rw [List.foldl_cons]
            rcases ihl (if b.w * b.h < q.w * q.h then q else b) with h | h

            · rw [h]
              by_cases hq : b.w * b.h < q.w * q.h
              · rw [if_pos hq]
                exact Or.inr (List.mem_cons_self _ _)
              · rw [if_neg hq]
                exact Or.inl rfl
            · exact Or.inr (List.mem_cons_of_mem _ h)
      rcases hgen rest r with h | h
      · rw [maxByArea, h]
        exact List.mem_cons_self _ _
      · rw [maxByArea]
        exact List.mem_cons_of_mem _ h

/-- Every rectangle returned by _cluster_by_x is one of the input
rectangles. -/
theorem clusterByX_subset (mergePx : ℚ) (rects : List Rect) :
    ∀ r ∈ clusterByX mergePx rects, r ∈ rects := by
  intro r hr
  rw [clusterByX] at hr
  rcases List.mem_map.mp hr with ⟨c, hc, hrc⟩
  cases hs : sortByKey rectCx rects with
  | nil =>
      rw [hs] at hc
      simp [clusterClusters] at hc
  | cons q rest =>
      rw [hs] at hc
      simp only [clusterClusters] at hc
      have hcne : c ≠ [] := clusterGo_nonempty mergePx rest [q] (rectCx q) (by simp) c hc
      have hmem : maxByArea c ∈ c := maxByArea_mem c hcne
      rw [hrc] at hmem
      rcases clusterGo_subset mergePx rest [q] (rectCx q) c hc r hmem with h | h
      · rcases List.mem_singleton.mp h with rfl
        have : r ∈ sortByKey rectCx rects := by
          rw [hs]
          exact List.mem_cons_self _ _
        exact (sortByKey_mem rectCx rects r).mp this
      · have : r ∈ sortByKey rectCx rects := by
          rw [hs]
          exact List.mem_cons_of_mem _ h
        exact (sortByKey_mem rectCx rects r).mp this

/-- Every bar in a detect_bar_chart result is one of the contour
rectangles. -/
theorem detectBars_mem (stdFn : List ℚ → ℚ) (imgW imgH : ℤ)
    (rects : List Rect) :
    ∀ b ∈ (detectBarsFromRects stdFn imgW imgH rects).bars, b ∈ rects := by
  intro b hb
  simp only [detectBarsFromRects] at hb
  split at hb
  · simp at hb
  · split at hb
    · have := clusterByX_subset _ _ b hb
      rw [filterBarCandidates, List.mem_filter] at this
      exact this.1
    · split at hb
      · rw [sortByKey_mem] at hb
        have := clusterByX_subset _ _ b hb
        rw [filterBarCandidates, List.mem_filter] at this
        exact this.1
      · have := clusterByX_subset _ _ b hb
        rw [filterBarCandidates, List.mem_filter] at this
        exact this.1

/-- C6 amended: every result of detect_bar_chart satisfies
bar_count = len(bars), its bars are contour rectangles of the input (hence
fully inside the image whenever the contour rectangles are), and, when
detected is true, the bars are sorted by x ascending.  A result with
detected = false carries the cluster representatives in center order, which
need not be x-sorted. -/
theorem detect_bar_chart_result_invariants (stdFn : List ℚ → ℚ)
    (imgW imgH : ℤ) (rects : List Rect) :
    (detectBarsFromRects stdFn imgW imgH rects).bar_count =
      (detectBarsFromRects stdFn imgW imgH rects).bars.length ∧
    (∀ b ∈ (detectBarsFromRects stdFn imgW imgH rects).bars, b ∈ rects) ∧
    ((detectBarsFromRects stdFn imgW imgH rects).detected = true →
      (detectBarsFromRects stdFn imgW imgH rects).bars.Pairwise
        (fun p q => p.x ≤ q.x)) ∧
    ((∀ b ∈ rects, 0 ≤ b.x ∧ 0 ≤ b.y ∧ b.x + b.w ≤ imgW ∧ b.y + b.h ≤ imgH) →
      ∀ b ∈ (detectBarsFromRects stdFn imgW imgH rects).bars,
        0 ≤ b.x ∧ 0 ≤ b.y ∧ b.x + b.w ≤ imgW ∧ b.y + b.h ≤ imgH) := by
  refine ⟨?_, detectBars_mem stdFn imgW imgH rects, ?_, ?_⟩
  · simp only [detectBarsFromRects]
    split
    · rfl
    · split
      · rfl
      · split
        · simp [sortByKey_length]
        · rfl
  · intro hdet
    simp only [detectBarsFromRects] at hdet ⊢
    by_cases h1 : filterBarCandidates imgW imgH rects = []
    · rw [if_pos h1] at hdet
      simp at hdet
    · rw [if_neg h1] at hdet ⊢
      by_cases h2 : (clusterByX ((max 6 (2 * imgW / 100) : ℤ) : ℚ)
          (filterBarCandidates imgW imgH rects)).length < 3
      · rw [if_pos h2] at hdet
        simp at hdet
      · rw [if_neg h2] at hdet ⊢
        split at hdet
        next h3 =>
          rw [if_pos h3]
          refine List.Pairwise.imp ?_ (sortByKey_sorted _ _)
          intro p q hpq
          exact_mod_cast hpq
        next h3 =>
          simp at hdet
  · intro hin b hb
    exact hin b (detectBars_mem stdFn imgW imgH rects b hb)

/-- Witness for the C6 amended theorem at a concrete input: the empty
rectangle list, with the in-bounds hypothesis discharged vacuously. -/
theorem detect_bar_chart_result_invariants_witness :
    (detectBarsFromRects (fun _ => 0) 10 10 []).bar_count =
      (detectBarsFromRects (fun _ => 0) 10 10 []).bars.length ∧
    (∀ b ∈ (detectBarsFromRects (fun _ => 0) 10 10 []).bars,
      0 ≤ b.x ∧ 0 ≤ b.y ∧ b.x + b.w ≤ 10 ∧ b.y + b.h ≤ 10) :=
  ⟨(detect_bar_chart_result_invariants (fun _ => 0) 10 10 []).1,
   (detect_bar_chart_result_invariants (fun _ => 0) 10 10 []).2.2.2
     (by simp)⟩

/-- C6 counterexample: two overlapping contour rectangles that survive the
candidate filter of a 1000x1000 image form two clusters ordered by center
(200 then 290) whose x coordinates are 100 then 90; with fewer than three
bars the detector returns them as-is, so a (non-detected) result carries a
bars list that is not sorted by x ascending. -/
theorem detect_bars_unsorted_at_concrete_input :
    (detectBarsFromRects (fun _ => 0) 1000 1000
        [⟨100, 100, 200, 300⟩, ⟨90, 100, 400, 300⟩]).detected = false ∧
    (detectBarsFromRects (fun _ => 0) 1000 1000
        [⟨100, 100, 200, 300⟩, ⟨90, 100, 400, 300⟩]).bars.map Rect.x =
      [100, 90] ∧
    ¬ (detectBarsFromRects (fun _ => 0) 1000 1000
        [⟨100, 100, 200, 300⟩, ⟨90, 100, 400, 300⟩]).bars.Pairwise
      (fun p q => p.x ≤ q.x) := by
  have hA : keepBarCandidate 1000 1000 ⟨100, 100, 200, 300⟩ = true := by
    rw [keepBarCandidate, decide_eq_true_eq]
    refine ⟨by decide, by decide, by decide, ?_, by decide, by decide,
      by decide, by decide⟩
    norm_num [max_def]
  have hB : keepBarCandidate 1000 1000 ⟨90, 100, 400, 300⟩ = true := by
    rw [keepBarCandidate, decide_eq_true_eq]
    refine ⟨by decide, by decide, by decide, ?_, by decide, by decide,
      by decide, by decide⟩
    norm_num [max_def]
  have hfil : filterBarCandidates 1000 1000
      [⟨100, 100, 200, 300⟩, ⟨90, 100, 400, 300⟩] =
      [⟨100, 100, 200, 300⟩, ⟨90, 100, 400, 300⟩] := by
    simp [filterBarCandidates, List.filter, hA, hB]
  have hsort : sortByKey rectCx [⟨100, 100, 200, 300⟩, ⟨90, 100, 400, 300⟩] =
      [⟨100, 100, 200, 300⟩, ⟨90, 100, 400, 300⟩] := by
    norm_num [sortByKey, List.foldl_cons, List.foldl_nil, insertByKey, rectCx]
  have hclus : clusterClusters 20 [⟨100, 100, 200, 300⟩, ⟨90, 100, 400, 300⟩] =
      [[⟨100, 100, 200, 300⟩], [⟨90, 100, 400, 300⟩]] := by
    norm_num [clusterClusters, clusterGo, rectCx, abs_le]
  have hclusX : clusterByX 20 [⟨100, 100, 200, 300⟩, ⟨90, 100, 400, 300⟩] =
      [⟨100, 100, 200, 300⟩, ⟨90, 100, 400, 300⟩] := by
    rw [clusterByX, hsort, hclus]
    rfl
  have hmp : ((max 6 (2 * (1000 : ℤ) / 100) : ℤ) : ℚ) = 20 := by
    norm_num
  have hres : detectBarsFromRects (fun _ => 0) 1000 1000
      [⟨100, 100, 200, 300⟩, ⟨90, 100, 400, 300⟩] =
      ⟨false, 2, [⟨100, 100, 200, 300⟩, ⟨90, 100, 400, 300⟩], 0, 0⟩ := by
    rw [detectBarsFromRects]
    rw [hfil, hmp]
    simp only [hclusX]
    norm_num
    simp
  rw [hres]
  refine ⟨rfl, rfl, ?_⟩
  intro hpw
  rw [List.pairwise_cons] at hpw
  have := hpw.1 _ (List.mem_cons_self _ _)
  simp at this

/-! ## Bar-chart extractor (chart_bar.py lines 367-549) -/

/-- The single series of the chart patch: its values and the
values_are_normalized marker (chart_bar.py lines 395-401, 493-494). -/
structure ChartSeries where
  values : List ℚ
  values_are_normalized : Bool
deriving Repr

/-- The flags extract_bar_chart sets on the paths modelled here
(chart_bar.py lines 382-389, 421, 486-491, 542). -/
structure ChartFlagsModel where
  axis_mapping_succeeded : Bool
  axis_mapping_failed : Bool
  time_budget_exceeded : Bool
  extraction_error : Bool
deriving Repr

/-- Embeds the value-producing part of extract_bar_chart (chart_bar.py
lines 408-494).  The axis-strip OCR and least-squares fit are external;
mapping is the result of _fit_linear_y_map (none when calibration failed).
Paths: the not-detected/under-3-bars early return (line 409), the
ValueError of max() on an empty height list caught by the outer except
(lines 418, 541-546), the deadline return (line 420), the calibrated branch
(lines 476-487) computing (a*(baseline-h)+b) - (a*baseline+b), and the
normalized branch values[i] = h[i]/max(1, max(h)) (line 489). -/
def extractBarChartValues (detect : BarChartDetectResult) (expired : Bool)
    (mapping : Option (ℚ × ℚ)) : ChartSeries × ChartFlagsModel :=
  if detect.detected = false ∨ detect.bar_count < 3 then
    (⟨[], true⟩, ⟨false, false, false, false⟩)
  else
    let bars := sortByKey (fun r => (r.x : ℚ)) detect.bars
    let heights := bars.map (fun r => max 0 (detect.baseline_y - r.y))
    if bars = [] then
      (⟨[], true⟩, ⟨false, false, false, true⟩)
    else
      let maxH : ℤ := max 1 (heights.foldl max 0)
      if expired = true then (⟨[], true⟩, ⟨false, false, true, false⟩)
      else
        match mapping with
        | some (a, b) =>
            let vBase := a * (detect.baseline_y : ℚ) + b
            (⟨heights.map (fun hpx : ℤ =>
                (a * ((detect.baseline_y : ℚ) - (hpx : ℚ)) + b) - vBase), false⟩,
             ⟨true, false, false, false⟩)
        | none =>
            (⟨heights.map (fun hpx : ℤ => (hpx : ℚ) / (maxH : ℚ)), true⟩,
             ⟨false, true, false, false⟩)

theorem foldl_max_init_le (l : List ℤ) : ∀ a : ℤ, a ≤ l.foldl max a := by
  induction l with
  | nil => intro a; simp
  | cons b l ih =>
      intro a
      rw [List.foldl_cons]
      exact le_trans (le_max_left a b) (ih (max a b))

theorem le_foldl_max (l : List ℤ) : ∀ (a x : ℤ), x ∈ l → x ≤ l.foldl max a := by
  induction l with
  | nil => intro a x hx; simp at hx
  | cons b l ih =>
      intro a x hx
      rw [List.foldl_cons]
      rcases List.mem_cons.mp hx with hx | hx
      · subst hx
        exact le_trans (le_max_right a x) (foldl_max_init_le l (max a x))
      · exact ih (max a b) x hx

theorem foldl_max_mem (l : List ℤ) :
    ∀ a : ℤ, l.foldl max a = a ∨ l.foldl max a ∈ l := by
  induction l with
  | nil => intro a; exact Or.inl rfl
  | cons b l ih =>
      intro a
      rw [List.foldl_cons]
      rcases ih (max a b) with h | h
      · rcases le_total a b with hab | hab
        · rw [max_eq_right hab] at h ⊢
          right
          rw [h]
          exact List.mem_cons_self _ _
        · rw [max_eq_left hab] at h ⊢
          exact Or.inl h
      · exact Or.inr (List.mem_cons_of_mem _ h)

/-- Evaluation of the normalized (calibration failed) branch on the
successful path. -/
theorem extractBarChartValues_none_unfold (detect : BarChartDetectResult)
    (h1 : ¬(detect.detected = false ∨ detect.bar_count < 3))
    (h2 : sortByKey (fun r => (r.x : ℚ)) detect.bars ≠ []) :
    extractBarChartValues detect false none =
      (⟨((sortByKey (fun r => (r.x : ℚ)) detect.bars).map
            (fun r => max 0 (detect.baseline_y - r.y))).map
          (fun hpx : ℤ => (hpx : ℚ) /
            ((max 1 (((sortByKey (fun r => (r.x : ℚ)) detect.bars).map
              (fun r => max 0 (detect.baseline_y - r.y))).foldl max 0) : ℤ) : ℚ)),
        true⟩,
       ⟨false, true, false, false⟩) := by
  simp only [extractBarChartValues, if_neg h1, if_neg h2,
    if_neg Bool.false_ne_true]

/-- Evaluation of the calibrated branch on the successful path. -/
theorem extractBarChartValues_some_unfold (detect : BarChartDetectResult)
    (a b : ℚ)
    (h1 : ¬(detect.detected = false ∨ detect.bar_count < 3))
    (h2 : sortByKey (fun r => (r.x : ℚ)) detect.bars ≠ []) :
    extractBarChartValues detect false (some (a, b)) =
      (⟨((sortByKey (fun r => (r.x : ℚ)) detect.bars).map
            (fun r => max 0 (detect.baseline_y - r.y))).map
          (fun hpx : ℤ => (a * ((detect.baseline_y : ℚ) - (hpx : ℚ)) + b) -
            (a * (detect.baseline_y : ℚ) + b)),
        false⟩,
       ⟨true, false, false, false⟩) := by
  simp only [extractBarChartValues, if_neg h1, if_neg h2,
    if_neg Bool.false_ne_true]

/-- C5 counterexample: calling extract_bar_chart with a non-detected result
carrying bar_count = 3 yields an empty values list marked normalized — so
len(values) = 0 differs from bar_count = 3, and no value equals 1.0. -/
theorem extract_bar_values_empty_on_undetected_input :
    (extractBarChartValues
        ⟨false, 3, [⟨0, 0, 5, 5⟩, ⟨10, 0, 5, 5⟩, ⟨20, 0, 5, 5⟩], 0, 0⟩
        false none).1.values.length = 0 ∧
    (⟨false, 3, [⟨0, 0, 5, 5⟩, ⟨10, 0, 5, 5⟩, ⟨20, 0, 5, 5⟩], 0,
        0⟩ : BarChartDetectResult).bar_count = 3 ∧
    (extractBarChartValues
        ⟨false, 3, [⟨0, 0, 5, 5⟩, ⟨10, 0, 5, 5⟩, ⟨20, 0, 5, 5⟩], 0, 0⟩
        false none).1.values_are_normalized = true := by
  refine ⟨?_, rfl, ?_⟩ <;> simp [extractBarChartValues]

/-- C5 amended: on the successful path — detected, at least three bars,
bar_count equal to len(bars) (true of genuine detector results), deadline
not expired — len(values) = bar_count; when the values are normalized they
all lie in [0, 1], and the value 1 is attained provided some bar top lies
strictly above the baseline (always the case for genuine detector results,
whose baseline is the median of the bar bottoms).  Non-detected, under-3-bar
and expired calls return an empty values list still marked normalized. -/
theorem extract_bar_values_invariants (detect : BarChartDetectResult)
    (expired : Bool) (mapping : Option (ℚ × ℚ))
    (hdet : detect.detected = true) (hcnt : 3 ≤ detect.bar_count)
    (hlen : detect.bar_count = detect.bars.length) (hexp : expired = false) :
    (extractBarChartValues detect expired mapping).1.values.length =
      detect.bar_count ∧
    ((extractBarChartValues detect expired mapping).1.values_are_normalized =
        true →
      (∀ v ∈ (extractBarChartValues detect expired mapping).1.values,
        0 ≤ v ∧ v ≤ 1) ∧
      ((∃ r ∈ detect.bars, r.y < detect.baseline_y) →
        1 ∈ (extractBarChartValues detect expired mapping).1.values)) := by
  have hcond : ¬(detect.detected = false ∨ detect.bar_count < 3) := by
    rw [hdet]
    push_neg
    exact ⟨by simp, by omega⟩
  have hslen : (sortByKey (fun r => (r.x : ℚ)) detect.bars).length =
      detect.bars.length := sortByKey_length _ _
  have hne : sortByKey (fun r => (r.x : ℚ)) detect.bars ≠ [] := by
    intro h
    rw [h] at hslen
    simp at hslen
    omega
  subst hexp
  rcases mapping with _ | ⟨a, b⟩
  · rw [extractBarChartValues_none_unfold detect hcond hne]
    constructor
    · rw [List.length_map, List.length_map, hslen, ← hlen]
    · intro hnorm
      clear hnorm
      set bars := sortByKey (fun r => (r.x : ℚ)) detect.bars with hbars
      set heights := bars.map (fun r => max 0 (detect.baseline_y - r.y))
        with hheights
      set fold : ℤ := heights.foldl max 0 with hfold
      have hfold_nonneg : 0 ≤ fold := foldl_max_init_le heights 0
      have hmaxH_pos : (0 : ℤ) < max 1 fold := lt_of_lt_of_le one_pos (le_max_left _ _)
      have hmaxH_cast : (0 : ℚ) < ((max 1 fold : ℤ) : ℚ) := by
        exact_mod_cast hmaxH_pos
      constructor
      · intro v hv
        rcases List.mem_map.mp hv with ⟨hpx, hhx, rfl⟩
        have h0 : (0 : ℤ) ≤ hpx := by
          rcases List.mem_map.mp hhx with ⟨r, _, rfl⟩
          exact le_max_left _ _
        have h1 : hpx ≤ max 1 fold :=
          le_trans (le_foldl_max heights 0 hpx hhx) (le_max_right _ _)
        constructor
        · apply div_nonneg _ (le_of_lt hmaxH_cast)
          exact_mod_cast h0
        · rw [div_le_one hmaxH_cast]
          exact_mod_cast h1
      · rintro ⟨r, hr, hry⟩
        have hrs : r ∈ bars := (sortByKey_mem _ _ _).mpr hr
        have hrh : max 0 (detect.baseline_y - r.y) ∈ heights :=
          List.mem_map.mpr ⟨r, hrs, rfl⟩
        have hr1 : (1 : ℤ) ≤ max 0 (detect.baseline_y - r.y) := by
          rw [max_eq_right (by omega)]
          omega
        have hfold1 : (1 : ℤ) ≤ fold :=
          le_trans hr1 (le_foldl_max heights 0 _ hrh)
        have hmem : fold ∈ heights := by
          rcases foldl_max_mem heights 0 with h | h
          · omega
          · exact h
        have hmaxH : max 1 fold = fold := max_eq_right hfold1
        refine List.mem_map.mpr ⟨fold, hmem, ?_⟩
        rw [hmaxH, div_self]
        intro hz
        rw [Int.cast_eq_zero] at hz
        omega
  · rw [extractBarChartValues_some_unfold detect a b hcond hne]
    constructor
    · rw [List.length_map, List.length_map, hslen, ← hlen]
    · intro hnorm
      simp at hnorm

/-- Witness for the C5 amended theorem: a concrete detected three-bar result
with baseline 10 and bar tops 5, 2, 6 yields values [5/8, 1, 1/2] — three
values, all in [0,1], with 1 attained. -/
theorem extract_bar_values_invariants_witness :
    1 ∈ (extractBarChartValues
        ⟨true, 3, [⟨0, 5, 2, 3⟩, ⟨10, 2, 2, 3⟩, ⟨20, 6, 2, 3⟩], 10, 1/2⟩
        false none).1.values ∧
    (extractBarChartValues
        ⟨true, 3, [⟨0, 5, 2, 3⟩, ⟨10, 2, 2, 3⟩, ⟨20, 6, 2, 3⟩], 10, 1/2⟩
        false none).1.values.length = 3 := by
  have hs : sortByKey (fun r => (r.x : ℚ))
      [⟨0, 5, 2, 3⟩, ⟨10, 2, 2, 3⟩, ⟨20, 6, 2, 3⟩] =
      [⟨0, 5, 2, 3⟩, ⟨10, 2, 2, 3⟩, ⟨20, 6, 2, 3⟩] := by
    norm_num [sortByKey, List.foldl_cons, List.foldl_nil, insertByKey]
  have h := extract_bar_values_invariants
    ⟨true, 3, [⟨0, 5, 2, 3⟩, ⟨10, 2, 2, 3⟩, ⟨20, 6, 2, 3⟩], 10, 1/2⟩
    false none rfl (by decide) rfl rfl
  have hnorm : (extractBarChartValues
      ⟨true, 3, [⟨0, 5, 2, 3⟩, ⟨10, 2, 2, 3⟩, ⟨20, 6, 2, 3⟩], 10, 1/2⟩
      false none).1.values_are_normalized = true := by
    rw [extractBarChartValues_none_unfold _ (by decide) (by rw [hs]; simp)]
  refine ⟨(h.2 hnorm).2 ⟨⟨0, 5, 2, 3⟩, by simp, by decide⟩, h.1⟩

/-- C8: whenever axis calibration succeeds with fitted line v = a*y + b, the
value computed for bar i on the successful path is
(a*(baseline - h_px[i]) + b) - (a*baseline + b) = -a*h_px[i], the delta from
the baseline; the axis_mapping_succeeded flag is set and the series is not
marked normalized. -/
theorem calibrated_values_are_baseline_deltas (detect : BarChartDetectResult)
    (a b : ℚ) (expired : Bool)
    (hdet : detect.detected = true) (hcnt : 3 ≤ detect.bar_count)
    (hlen : detect.bar_count = detect.bars.length) (hexp : expired = false) :
    (extractBarChartValues detect expired (some (a, b))).1.values =
      (sortByKey (fun r => (r.x : ℚ)) detect.bars).map
        (fun r => -(a * ((max 0 (detect.baseline_y - r.y) : ℤ) : ℚ))) ∧
    (extractBarChartValues detect expired
        (some (a, b))).2.axis_mapping_succeeded = true ∧
    (extractBarChartValues detect expired
        (some (a, b))).1.values_are_normalized = false := by
  have hcond : ¬(detect.detected = false ∨ detect.bar_count < 3) := by
    rw [hdet]
    push_neg
    exact ⟨by simp, by omega⟩
  have hslen : (sortByKey (fun r => (r.x : ℚ)) detect.bars).length =
      detect.bars.length := sortByKey_length _ _
  have hne : sortByKey (fun r => (r.x : ℚ)) detect.bars ≠ [] := by
    intro h
    rw [h] at hslen
    simp at hslen
    omega
  subst hexp
  rw [extractBarChartValues_some_unfold detect a b hcond hne]
  refine ⟨?_, rfl, rfl⟩
  rw [List.map_map]
  apply List.map_congr_left
  intro r _
  simp only [Function.comp]
  ring

/-- Witness for the C8 theorem at a concrete calibrated input (a = 2,
b = 3). -/
theorem calibrated_values_witness :
    (extractBarChartValues
        ⟨true, 3, [⟨0, 5, 2, 3⟩, ⟨10, 2, 2, 3⟩, ⟨20, 6, 2, 3⟩], 10, 1/2⟩
        false (some (2, 3))).1.values =
      (sortByKey (fun r => (r.x : ℚ))
          [⟨0, 5, 2, 3⟩, ⟨10, 2, 2, 3⟩, ⟨20, 6, 2, 3⟩]).map
        (fun r => -(2 * ((max 0 ((10 : ℤ) - r.y) : ℤ) : ℚ))) ∧
    (extractBarChartValues
        ⟨true, 3, [⟨0, 5, 2, 3⟩, ⟨10, 2, 2, 3⟩, ⟨20, 6, 2, 3⟩], 10, 1/2⟩
        false (some (2, 3))).2.axis_mapping_succeeded = true ∧
    (extractBarChartValues
        ⟨true, 3, [⟨0, 5, 2, 3⟩, ⟨10, 2, 2, 3⟩, ⟨20, 6, 2, 3⟩], 10, 1/2⟩
        false (some (2, 3))).1.values_are_normalized = false :=
  calibrated_values_are_baseline_deltas
    ⟨true, 3, [⟨0, 5, 2, 3⟩, ⟨10, 2, 2, 3⟩, ⟨20, 6, 2, 3⟩], 10, 1/2⟩
    2 3 false rfl (by decide) rfl rfl

/-- Witness for the C1 amended theorem at a concrete input: a region with no
table and OCR text present triggers no bar detection and is not promoted to
chart. -/
theorem extract_visuals_stage_structure_witness :
    Stage.barDetect ∉ (processAsset (1/2) false 0 true (3/10)).stages ∧
    (processAsset (1/2) false 0 true (3/10)).asset_type ≠ "chart" :=
  ⟨(extract_visuals_stage_structure (1/2) 0 (3/10) false true).1,
   (extract_visuals_stage_structure (1/2) 0 (3/10) false true).2.2.1⟩

/-- Witness for the C7 theorem at a concrete blank 1x1 mask pair. -/
theorem detect_table_decision_witness :
    (detectTableFromMasks 1 1 [[false]] [[false]]).grid_detected = true ↔
      (3 ≤ (detectTableFromMasks 1 1 [[false]] [[false]]).x_lines.length ∧
       3 ≤ (detectTableFromMasks 1 1 [[false]] [[false]]).y_lines.length) :=
  (detect_table_decision 1 1 [[false]] [[false]]).2

/-- Witness for the C10 theorem at a concrete 2x2 mask pair. -/
theorem detect_table_line_positions_witness :
    (detectTableFromMasks 2 2 [[true, true], [false, false]]
      [[false, true], [false, true]]).x_lines.Pairwise (· < ·) ∧
    ∀ x ∈ (detectTableFromMasks 2 2 [[true, true], [false, false]]
      [[false, true], [false, true]]).x_lines, x < 2 :=
  ⟨(detect_table_line_positions 2 2 [[true, true], [false, false]]
      [[false, true], [false, true]]).1.1,
   (detect_table_line_positions 2 2 [[true, true], [false, false]]
      [[false, true], [false, true]]).1.2.1⟩

end VisionWorker
